import Mathlib

/-!
# Verification of the aimed product/interaction pipeline

A shallow embedding, in Lean 4, of the core logic of the `aimed`
repository (React frontend + Fastify backend for medicine/supplement
interaction checking): the catalog resolver, the stored-interaction
lookup of `POST /mix`, the K2 interaction-prediction bridge (route and
standalone script), the JSON-extraction utilities, the severity
classifier of the RxNorm backfill, and the ingestion loaders.

Free text is embedded as `List Char`.  The external collaborators
(the Postgres/Supabase store, the K2 chat-completion API, JavaScript's
`JSON.parse`) are modelled as explicit data: store tables are lists of
rows, the model API is an oracle from pair index to an outcome, and
`JSON.parse` is a parameter producing an optional parsed prediction.
-/

namespace Aimed

/-- Lower-case every character, the embedding of JavaScript
`s.toLowerCase()` on the ASCII names handled by the app. -/
def lowerStr (s : List Char) : List Char := s.map Char.toLower

/-- `startsW s p` is true when `p` is an initial segment of `s`. -/
def startsW : List Char → List Char → Bool
  | _, [] => true
  | [], _ :: _ => false
  | a :: as, b :: bs => a = b && startsW as bs

/-- `hasSub hay needle` embeds JavaScript `hay.includes(needle)`:
`needle` occurs contiguously somewhere in `hay`. -/
def hasSub : List Char → List Char → Bool
  | [], n => n.isEmpty
  | h :: t, n => startsW (h :: t) n || hasSub t n

/-- JavaScript whitespace test for `String.prototype.trim` (the
characters that occur in this app's inputs). -/
def isWs (c : Char) : Bool := c = ' ' || c = '\t' || c = '\n' || c = '\r'

/-- Embedding of `String(x).trim()`. -/
def trimStr (s : List Char) : List Char :=
  ((s.dropWhile isWs).reverse.dropWhile isWs).reverse

/-! ## JSON extraction from model replies

`src/server/src/index.js` (the `/predict-interactions` handler of the
Supabase variant) strips everything up to and including the `</think>`
reasoning marker, looks for the first `\x7b`, and then scans forward
keeping a brace counter until it returns to zero.
`src/server/predict_interactions_k2.js` instead matches the greedy
regex over the raw content, and `parseK2Json` falls back to the
substring from the first opening brace to the last closing brace; both
denote `naiveExtract` below. -/

/-- The K2 Think reasoning end marker, the characters of the string
`</think>`. -/
def thinkMarker : List Char := ['<', '/', 't', 'h', 'i', 'n', 'k', '>']

/-- Drop everything up to and including the first occurrence of
`m`; `none` when `m` does not occur (embedding of
`indexOf(m)`/`substring(idx + m.length)`). -/
def dropThrough : List Char → List Char → Option (List Char)
  | [], m => if m.isEmpty then some [] else none
  | h :: t, m =>
    if startsW (h :: t) m then some ((h :: t).drop m.length)
    else dropThrough t m

/-- Strip the reasoning block: when `</think>` occurs, keep only what
follows it, otherwise keep the whole reply (JS `indexOf === -1`). -/
def stripReasoning (s : List Char) : List Char :=
  match dropThrough s thinkMarker with
  | some r => r
  | none => s

/-- The brace-counting scan of the route handler: `depth` is the
running brace counter, `acc` the consumed characters in reverse; the
scan stops as soon as the counter returns to zero and fails at the end
of the text (JS `endIdx === -1`). -/
def scanBal (depth : Int) (acc : List Char) : List Char → Option (List Char)
  | [] => none
  | c :: rest =>
    let d : Int := if c = '{' then depth + 1 else if c = '}' then depth - 1 else depth
    if d = 0 then some (c :: acc).reverse else scanBal d (c :: acc) rest

/-- Find the first balanced brace-delimited object: skip to the first
opening brace and run the counting scan from there. -/
def findBalanced (s : List Char) : Option (List Char) :=
  match s.dropWhile (fun c => c ≠ '{') with
  | [] => none
  | l => scanBal 0 [] l

/-- The complete extraction step of the `/predict-interactions` route:
strip the reasoning marker, then take the first balanced object. -/
def extractJsonRoute (content : List Char) : Option (List Char) :=
  findBalanced (stripReasoning content)

/-- The extraction used by `predict_interactions_k2.js`
(`content.match` of the greedy brace regex) and by the `parseK2Json`
fallback (`indexOf` of the opening brace to `lastIndexOf` of the
closing brace): the substring from the first opening brace to the last
closing brace, when the former precedes the latter. -/
def naiveExtract (s : List Char) : Option (List Char) :=
  let i := s.findIdx (fun c => c = '{')
  let jrev := s.reverse.findIdx (fun c => c = '}')
  if i < s.length && jrev < s.length then
    let j := s.length - 1 - jrev
    if i < j then some ((s.drop i).take (j + 1 - i)) else none
  else none

/-- Signed brace weight of one character. -/
def charD (c : Char) : Int := if c = '{' then 1 else if c = '}' then -1 else 0

/-- Brace depth of a text: number of opening minus closing braces. -/
def braceDepth (l : List Char) : Int := (l.map charD).sum

/-- Specification predicate, phrased from the spec's words: `o` is the
first balanced brace object of `s`, i.e. the shortest non-empty prefix
of `s`-after-skipping-to-the-first-opening-brace whose brace depth
returns to zero (nested braces are tolerated by the depth count). -/
def FirstBalancedFrom (s o : List Char) : Prop :=
  ∃ k, 0 < k ∧ k ≤ (s.dropWhile (fun c => c ≠ '{')).length ∧
    o = (s.dropWhile (fun c => c ≠ '{')).take k ∧
    braceDepth ((s.dropWhile (fun c => c ≠ '{')).take k) = 0 ∧
    ∀ m, 0 < m → m < k → braceDepth ((s.dropWhile (fun c => c ≠ '{')).take m) ≠ 0

/-! ## SQL LIKE patterns

The serving handlers query the store with `ILIKE`.  `ILIKE` lowers
both sides and then applies `LIKE` pattern matching, where `%` matches
any run of characters and `_` any single character.  `likeMatch`
implements `LIKE` on already-lowered operands. -/

/-- `likeMatch t p` : does text `t` match `LIKE` pattern `p`. -/
def likeMatch : List Char → List Char → Bool
  | t, [] => t.isEmpty
  | t, p :: ps =>
    if p = '%' then
      likeMatch t ps ||
        (match t with
         | [] => false
         | _ :: t' => likeMatch t' (p :: ps))
    else
      match t with
      | [] => false
      | c :: t' => (p = '_' || p = c) && likeMatch t' ps
termination_by t p => t.length + p.length
decreasing_by all_goals simp_wf <;> omega

/-! ## The product catalog -/

/-- A row of the `products` table in the schema used by the Supabase
variant and the first pg variant of the backend (`part_001` of the
unnamed sources): the columns touched by the serving path. -/
structure Product where
  id : Nat
  name : List Char
  ptype : List Char
  generic_name : Option (List Char)
  brand_names : List (List Char)
  dosage_form : Option (List Char)
  strength : Option (List Char)
  description : Option (List Char)
  active_ingredients : List (List Char)
deriving DecidableEq, Repr

/-- The outcome of resolving one free-text input, tagged as in the
JSON objects the handlers push onto `resolved`. -/
inductive Resolution (π : Type) where
  | product (input : List Char) (p : π) (ingredients : List (List Char))
  | ingredient (input : List Char) (name : List Char)
  | unknown (input : List Char)
deriving DecidableEq, Repr

/-- `ORDER BY <key> LIMIT 1` of a row set: some row with the least
key (string comparison), `none` on an empty set. -/
def minByKey {α : Type} (key : α → List Char) (l : List α) : Option α :=
  l.foldl
    (fun acc p =>
      match acc with
      | none => some p
      | some q => if String.mk (key p) < String.mk (key q) then some p else some q)
    none

/-- The Supabase `/mix` product matching: all products are fetched and
the handler takes the first (in fetched order) whose name — or generic
name — contains the lowered input. -/
def supMatch (allProducts : List Product) (input : List Char) : Option Product :=
  allProducts.find? (fun p =>
    hasSub (lowerStr p.name) (lowerStr input) ||
      (match p.generic_name with
       | some g => hasSub (lowerStr g) (lowerStr input)
       | none => false))

/-- The Supabase `/mix` resolution of one (already trimmed, non-blank)
item: a containing product if any, otherwise the raw input as a bare
ingredient. -/
def resolveItemSup (allProducts : List Product) (input : List Char) : Resolution Product :=
  match supMatch allProducts input with
  | some m => .product input m m.active_ingredients
  | none => .ingredient input input

/-- The first pg variant's `/mix` product query for one item:
`WHERE LOWER(name) ILIKE $1 ORDER BY name LIMIT 1` with the lowered
input as the pattern. -/
def pgProductQuery (products : List Product) (input : List Char) : Option Product :=
  minByKey Product.name
    (products.filter (fun p => likeMatch (lowerStr p.name) (lowerStr input)))

/-- The first pg variant's `/mix` resolution of one item. -/
def resolveItemPg (products : List Product) (input : List Char) : Resolution Product :=
  match pgProductQuery products input with
  | some m => .product input m m.active_ingredients
  | none => .ingredient input input

/-- A row of the `products` table in the DSLD schema used by the
second pg variant (`ingest.js`): the columns its `/mix` selects. -/
structure DsldRow where
  dsldId : Option Nat
  productName : List Char
  brandName : Option (List Char)
deriving DecidableEq, Repr

/-- A row of the `supplement_facts` table (DSLD schema). -/
structure FactRow where
  dsldId : Option Nat
  ingredient : List Char
deriving DecidableEq, Repr

/-- The second pg variant's `/mix` resolution of one item:
`product_name ILIKE $1 ORDER BY product_name LIMIT 1`; on a product
hit, its ingredients are the non-blank `supplement_facts.ingredient`
values for its `dsld_id` (an SQL `=` against a NULL id matches no
row); on a miss, `ingredient ILIKE $1 ORDER BY ingredient LIMIT 1`
over `supplement_facts`, falling through to tag `unknown`. -/
def resolveItemPg2 (products : List DsldRow) (facts : List FactRow)
    (input : List Char) : Resolution DsldRow :=
  match minByKey DsldRow.productName
      (products.filter (fun p => likeMatch (lowerStr p.productName) (lowerStr input))) with
  | some m =>
    let ings :=
      (match m.dsldId with
       | none => []
       | some d => (facts.filter (fun (f : FactRow) => f.dsldId = some d)).map FactRow.ingredient)
    .product input m (ings.filter (fun g => !g.isEmpty))
  | none =>
    match minByKey id
        ((facts.map FactRow.ingredient).filter
          (fun g => likeMatch (lowerStr g) (lowerStr input))) with
    | some g => .ingredient input g
    | none => .unknown input

/-! ## Stored interactions and the `/mix` lookup (Supabase variant) -/

/-- A row of the `interactions` table (product-id-pair schema),
restricted to the columns the serving path reads. -/
structure InterRow where
  product_id_1 : Nat
  product_id_2 : Nat
  severity : List Char
  interaction_description : List Char
  notes : List Char
deriving DecidableEq, Repr

/-- An entry of the `interactions` array returned by `/mix` and
`/predict-interactions` (substance names joined in). -/
structure OutInter where
  ingredient_a : List Char
  ingredient_b : List Char
  severity : List Char
  interaction : List Char
  notes : List Char
deriving DecidableEq, Repr

/-- Display name of a product id (the `products!product_id_N(name)`
join of the Supabase query). -/
def prodName (products : List Product) (i : Nat) : List Char :=
  match products.find? (fun p => p.id = i) with
  | some p => p.name
  | none => []

/-- Output shape of `POST /mix`.  `predictionCalls` counts invocations
of the external prediction model made by the handler; the `/mix`
handler contains none, so every path sets it to `0`. -/
structure MixResult where
  interactions : List OutInter
  resolved : List (Resolution Product)
  predictionCalls : Nat
deriving DecidableEq, Repr

/-- The stored-interaction row for `r`, annotated with both product
names, as the Supabase `/mix` pushes it. -/
def interToOut (allProducts : List Product) (r : InterRow) : OutInter :=
  ⟨prodName allProducts r.product_id_1, prodName allProducts r.product_id_2,
    r.severity, r.interaction_description, r.notes⟩

/-- The Supabase `POST /mix` handler: trim and drop blank items,
resolve each, and when at least two products matched, return every
stored interaction row with both endpoints among the matched ids. -/
def mixSupabase (allProducts : List Product) (interRows : List InterRow)
    (items : List (List Char)) : MixResult :=
  let cleanItems := (items.map trimStr).filter (fun s => !s.isEmpty)
  if cleanItems.isEmpty then ⟨[], [], 0⟩
  else
    let resolved := cleanItems.map (resolveItemSup allProducts)
    let matched := cleanItems.filterMap (supMatch allProducts)
    let productIds := matched.map Product.id
    let interactions :=
      if 2 ≤ matched.length then
        (interRows.filter (fun r =>
          productIds.contains r.product_id_1 && productIds.contains r.product_id_2)).map
          (interToOut allProducts)
      else []
    ⟨interactions, resolved, 0⟩

/-! ## `POST /compare` -/

/-- JavaScript `x || d` for an optional string column: the default
steps in for a missing or empty value. -/
def optOr (o : Option (List Char)) (d : List Char) : List Char :=
  match o with
  | some v => if v.isEmpty then d else v
  | none => d

/-- One product entry of the comparison payload. -/
structure CompareDetail where
  name : List Char
  ptype : List Char
  generic_name : List Char
  brand : List Char
  form : List Char
  strength : List Char
  description : List Char
  active_ingredients : List (List Char)
deriving DecidableEq, Repr

/-- The comparison entry built from a product row (Supabase and first
pg variants share this shape). -/
def toDetail (p : Product) : CompareDetail :=
  ⟨p.name, p.ptype, optOr p.generic_name "N/A".toList,
    List.intercalate ", ".toList p.brand_names,
    optOr p.dosage_form "N/A".toList, optOr p.strength "N/A".toList,
    optOr p.description "N/A".toList, p.active_ingredients⟩

/-- Response of `POST /compare`. -/
structure CompareResult where
  comparison : List (List CompareDetail)
  error : Option (List Char)
deriving DecidableEq, Repr

/-- Stable ascending insertion, used to embed `ORDER BY <key>`. -/
def insertSorted {α : Type} (key : α → List Char) (a : α) : List α → List α
  | [] => [a]
  | b :: t =>
    if String.mk (key a) ≤ String.mk (key b) then a :: b :: t
    else b :: insertSorted key a t

/-- `ORDER BY <key>` of a row set. -/
def sortByKey {α : Type} (key : α → List Char) (l : List α) : List α :=
  l.foldr (insertSorted key) []

/-- The Supabase `POST /compare` handler.  The handler only reads the
store, so it is embedded as returning the (unchanged) store next to
the response body. -/
def compareSupabase (store : List Product) (names : List (List Char)) :
    CompareResult × List Product :=
  if names.length < 2 then
    (⟨[], some "at_least_two_products_required".toList⟩, store)
  else
    let cleanNames := (names.map trimStr).filter (fun s => !s.isEmpty)
    if cleanNames.length < 2 then
      (⟨[], some "at_least_two_products_required".toList⟩, store)
    else
      let productRows := sortByKey Product.name
        (store.filter (fun p =>
          cleanNames.any (fun n => likeMatch (lowerStr p.name) ('%' :: lowerStr n ++ ['%']))))
      if productRows.isEmpty then (⟨[], some "no_products_found".toList⟩, store)
      else
        let foundProducts := cleanNames.filterMap (fun n =>
          productRows.find? (fun p =>
            hasSub (lowerStr p.name) (lowerStr n) ||
              (match p.generic_name with
               | some g => hasSub (lowerStr g) (lowerStr n)
               | none => false)))
        if 2 ≤ foundProducts.length then (⟨[foundProducts.map toDetail], none⟩, store)
        else if !foundProducts.isEmpty then (⟨[foundProducts.map toDetail], none⟩, store)
        else (⟨[], some "no_matching_products".toList⟩, store)

/-- The first pg variant's `POST /compare` handler: per-name
`LOWER(name) ILIKE $1 ORDER BY name LIMIT 1` lookups, skipping blank
names and unmatched names. -/
def comparePg (store : List Product) (names : List (List Char)) :
    CompareResult × List Product :=
  if names.length < 2 then
    (⟨[], some "at_least_two_products_required".toList⟩, store)
  else
    let details := ((names.map trimStr).filter (fun s => !s.isEmpty)).filterMap
      (fun n => (pgProductQuery store n).map toDetail)
    (⟨[details], none⟩, store)

/-! ## The interaction prediction bridge

`POST /predict-interactions` (Supabase variant) and the standalone
script `predict_interactions_k2.js`.  The external chat-completion API
is an oracle from the index of a pair (in the fixed `i < j` evaluation
order) to an outcome: a thrown request error (network failure,
timeout, non-2xx), a response with no message content, or raw text
content.  JavaScript `JSON.parse` applied to the extracted candidate
string is a parameter `parse` returning `none` when it throws. -/

/-- The JSON object the model is instructed to produce, as read off by
the handlers after `JSON.parse`: every field may be absent. -/
structure Prediction where
  has_interaction : Bool
  severity : Option (List Char)
  description : Option (List Char)
  notes : Option (List Char)
  mechanism : Option (List Char)
deriving DecidableEq, Repr

/-- One outcome of a call to the external model. -/
inductive K2Outcome where
  | httpError
  | noContent
  | content (raw : List Char)
deriving DecidableEq, Repr

/-- The per-item descriptor the route builds before prediction. -/
structure ItemDetail where
  name : List Char
  itype : List Char
  generic_name : List Char
  active_ingredients : List (List Char)
deriving DecidableEq, Repr

/-- Build one item's descriptor from the fetched product rows: the
route keys a map by lowered product name (later rows overwrite earlier
ones) and falls back to the raw input. -/
def itemDetailOf (productRows : List Product) (input : List Char) : ItemDetail :=
  match productRows.reverse.find? (fun p => lowerStr p.name = lowerStr input) with
  | some p =>
    ⟨input, optOr (some p.ptype) "unknown".toList, optOr p.generic_name input,
      p.active_ingredients⟩
  | none => ⟨input, "unknown".toList, input, []⟩

/-- The route's push decision on a parsed prediction: skip when
`severity` is undefined (`=== undefined` guard) or falsy (empty
string); otherwise record the pair — including severity `none`, which
the handler keeps deliberately ("so user knows we checked"). -/
def routePush (pred : Prediction) (a b : ItemDetail) : Option OutInter :=
  match pred.severity with
  | none => none
  | some s =>
    if s.isEmpty then none
    else some ⟨a.name, b.name, s,
      optOr pred.description "No significant interaction expected".toList,
      optOr pred.notes []⟩

/-- Process one pair in the route's loop: any request error, missing
content, failed extraction or failed parse is caught and contributes
nothing. -/
def processPair (parse : List Char → Option Prediction) (a b : ItemDetail)
    (o : K2Outcome) : Option OutInter :=
  match o with
  | .httpError => none
  | .noContent => none
  | .content raw =>
    match extractJsonRoute raw with
    | none => none
    | some jstr =>
      match parse jstr with
      | none => none
      | some pred => routePush pred a b

/-- All pairs `(i, j)` with `i < j` in input order, the evaluation
order of both the route and the script. -/
def allPairs {α : Type} : List α → List (α × α)
  | [] => []
  | x :: xs => xs.map (fun y => (x, y)) ++ allPairs xs

/-- The route's pair loop: evaluate every pair against its oracle
outcome and keep the produced records in order. -/
def predictPairs (parse : List Char → Option Prediction)
    (itemDetails : List ItemDetail) (oracle : Nat → K2Outcome) : List OutInter :=
  (allPairs itemDetails).enum.filterMap
    (fun ka => processPair parse ka.2.1 ka.2.2 (oracle ka.1))

/-- Response of `POST /predict-interactions`.  `dbWrites` counts
writes to the interactions store made by the handler; the handler
performs none (its only store access is the product select), so every
path sets it to `0`. -/
structure PredictResult where
  interactions : List OutInter
  error : Option (List Char)
  dbWrites : Nat
deriving DecidableEq, Repr

/-- The `POST /predict-interactions` handler (Supabase variant). -/
def predictRoute (parse : List Char → Option Prediction) (store : List Product)
    (items : List (List Char)) (hasKey : Bool) (oracle : Nat → K2Outcome) :
    PredictResult :=
  if items.length < 2 then ⟨[], some "at_least_two_items_required".toList, 0⟩
  else if !hasKey then ⟨[], some "k2_api_key_missing".toList, 0⟩
  else
    let cleanItems := (items.map trimStr).filter (fun s => !s.isEmpty)
    if cleanItems.length < 2 then ⟨[], some "at_least_two_items_required".toList, 0⟩
    else
      let productRows := store.filter (fun p =>
        cleanItems.any (fun it => likeMatch (lowerStr p.name) (lowerStr it ++ ['%'])))
      let itemDetails := cleanItems.map (itemDetailOf productRows)
      ⟨predictPairs parse itemDetails oracle, none, 0⟩

/-! ## The standalone prediction script `predict_interactions_k2.js` -/

/-- A `products` row as the script selects it. -/
structure KProd where
  id : Nat
  name : List Char
  ptype : List Char
  generic_name : Option (List Char)
  active_ingredients : Option (List (List Char))
deriving DecidableEq, Repr

/-- An `interactions` row as the scripts insert it. -/
structure IRow where
  product_id_1 : Nat
  product_id_2 : Nat
  interaction_description : Option (List Char)
  severity : Option (List Char)
  mechanism : Option (List Char)
  notes : List Char
  sources : List (List Char)
deriving DecidableEq, Repr

/-- JavaScript `x || null` for an optional string field. -/
def optOrNull (o : Option (List Char)) : Option (List Char) :=
  match o with
  | some v => if v.isEmpty then none else some v
  | none => none

/-- The script's decision on a parsed prediction: when
`has_interaction` is falsy or `severity` is the string `none`, return
null — no record, nothing to save; otherwise build the row to insert. -/
def scriptPrediction (pred : Prediction) (p1 p2 : KProd) : Option IRow :=
  if !pred.has_interaction || pred.severity == some "none".toList then none
  else some ⟨p1.id, p2.id, pred.description, pred.severity,
    optOrNull pred.mechanism, "Predicted by K2 Think AI".toList,
    ["K2 Think AI".toList]⟩

/-- The script's `predictInteraction` for one pair: the whole body is
wrapped in one `try`, so a request error, missing content, failed
regex match or a `JSON.parse` throw all yield null.  The script's
extraction is `naiveExtract` (the greedy brace regex) on the raw
content — no reasoning-marker stripping. -/
def scriptPredictInteraction (parse : List Char → Option Prediction)
    (p1 p2 : KProd) (o : K2Outcome) : Option IRow :=
  match o with
  | .httpError => none
  | .noContent => none
  | .content raw =>
    match naiveExtract raw with
    | none => none
    | some jstr =>
      match parse jstr with
      | none => none
      | some pred => scriptPrediction pred p1 p2

/-- The script's main pair loop: all pairs `i < j`, skipping any pair
with identical product ids before calling the model. -/
def k2Collect (parse : List Char → Option Prediction)
    (targetProducts : List KProd) (oracle : Nat → K2Outcome) : List IRow :=
  (allPairs targetProducts).enum.filterMap
    (fun ka =>
      if ka.2.1.id = ka.2.2.id then none
      else scriptPredictInteraction parse ka.2.1 ka.2.2 (oracle ka.1))

/-! ## The RxNorm interaction backfill (`part_002` of the unnamed
sources, `load_rxnorm_interactions.js`) -/

/-- The severity classifier of the backfill: keyword search over the
lowered free-text description. -/
def determineSeverity (description : List Char) : List Char :=
  let lower := lowerStr description
  if hasSub lower "contraindicated".toList || hasSub lower "avoid".toList then
    "contraindicated".toList
  else if hasSub lower "severe".toList || hasSub lower "serious".toList then
    "severe".toList
  else if hasSub lower "moderate".toList then "moderate".toList
  else if hasSub lower "minor".toList || hasSub lower "mild".toList then "mild".toList
  else "moderate".toList

/-- A `products` row as the backfill selects it (fetched in ascending
id order). -/
structure RProd where
  id : Nat
  name : List Char
  ptype : List Char
deriving DecidableEq, Repr

/-- One interaction reported by the remote RxNorm API: the counterpart
drug name and the free-text description (already defaulted to the
empty string). -/
structure RxInter where
  drugName : List Char
  description : List Char
deriving DecidableEq, Repr

/-- The backfill's `findProductId`: scan the in-memory id → name map
(ascending id order) for a lowered-name equality or containment hit,
then fall back to a `name ILIKE %q% LIMIT 1` query over the same
products. -/
def findPid (products : List RProd) (q : List Char) : Option Nat :=
  match products.find? (fun p =>
      lowerStr p.name == lowerStr q || hasSub (lowerStr p.name) (lowerStr q)) with
  | some p => some p.id
  | none =>
    (products.find? (fun p => hasSub (lowerStr p.name) (lowerStr q))).map RProd.id

/-- The backfill's candidate-collection loop: for each product and
each reported counterpart, resolve the counterpart to a stored product
id and keep the pair only when that id differs from the source
product's id. -/
def rxCollect (products : List RProd) (rxLookup : RProd → List RxInter) : List IRow :=
  products.foldr
    (fun p acc =>
      ((rxLookup p).filterMap (fun ri =>
        match findPid products ri.drugName with
        | some pid2 =>
          if pid2 ≠ p.id then
            some ⟨p.id, pid2,
              some (if ri.description.isEmpty then ri.drugName else ri.description),
              some (determineSeverity ri.description), none,
              "From RxNorm API".toList, []⟩
          else none
        | none => none)) ++ acc)
    []

/-! ## Loaders with existence pre-checks -/

/-- Result of one loader run: the store afterwards plus the reported
counters. -/
structure LoadResult (α : Type) where
  store : List α
  loaded : Nat
  skipped : Nat
deriving DecidableEq, Repr

/-- `interactionExists`: is the unordered pair already stored (checked
in both column orders)? -/
def interExists (store : List IRow) (p1 p2 : Nat) : Bool :=
  store.any (fun r =>
    (r.product_id_1 = p1 && r.product_id_2 = p2) ||
      (r.product_id_1 = p2 && r.product_id_2 = p1))

/-- `loadInteractions` (shared by the RxNorm and DrugBank loaders):
insert each candidate unless its pair already exists — each check runs
against the store as grown by the preceding inserts. -/
def loadInteractions (store : List IRow) (cands : List IRow) : LoadResult IRow :=
  cands.foldl
    (fun acc r =>
      if interExists acc.store r.product_id_1 r.product_id_2 then
        ⟨acc.store, acc.loaded, acc.skipped + 1⟩
      else ⟨acc.store ++ [r], acc.loaded + 1, acc.skipped⟩)
    ⟨store, 0, 0⟩

/-- A `products` row as the DSLD loader inserts it, restricted to the
fields its duplicate check involves. -/
structure DProd where
  dsldId : Option Nat
  name : List Char
deriving DecidableEq, Repr

/-- `productExists` of `load_dsld_data.js`: an id-equality check; per
SQL semantics an `=` comparison against NULL matches no row. -/
def productExists (store : List DProd) (dsldId : Option Nat) : Bool :=
  match dsldId with
  | none => false
  | some v => store.any (fun r => r.dsldId = some v)

/-- `loadProducts` of `load_dsld_data.js`: insert each parsed product
unless a row with its `dsld_id` already exists. -/
def loadProducts (store : List DProd) (items : List DProd) : LoadResult DProd :=
  items.foldl
    (fun acc r =>
      if productExists acc.store r.dsldId then ⟨acc.store, acc.loaded, acc.skipped + 1⟩
      else ⟨acc.store ++ [r], acc.loaded + 1, acc.skipped⟩)
    ⟨store, 0, 0⟩

/-! ## The tabular CSV ingest (`scripts/ingest.js`)

`ingest.js` streams CSV rows, buffers them into fixed-size groups and
issues one multi-row `INSERT` per group, products first.  The table it
writes is governed by the DSLD schema (the second document of
`part_001`, applied by `scripts/migrate.js`): `products` declares
`dsld_id INTEGER PRIMARY KEY`.  The `INSERT` has no `ON CONFLICT`
clause, so a batch containing a missing or already-present key is
rejected as a whole (one SQL statement is atomic), and since the only
handler around the ingest loop is a `try/finally` closing the client,
the error aborts the remaining batches and tables. -/

/-- A parsed CSV row bound for the `products` table, restricted to the
columns its constraint involves: the coerced `dsld_id` key (`Number`
of the CSV cell, `null` when absent or not numeric) and the product
name. -/
structure IngRow where
  dsldId : Option Nat
  productName : Option (List Char)
deriving DecidableEq, Repr

/-- Is a key value already present in the `products` table?  (A `null`
key collides with no stored row — but it violates the `PRIMARY KEY`'s
implied `NOT NULL`, which `insertBatch` checks separately.) -/
def ingKeyTaken (table : List IngRow) (k : Option Nat) : Bool :=
  match k with
  | none => false
  | some v => table.any (fun r => r.dsldId = some v)

/-- No two rows of one batch share a `dsld_id`. -/
def batchNodup : List IngRow → Bool
  | [] => true
  | r :: rest => !ingKeyTaken rest r.dsldId && batchNodup rest

/-- `insertBatch`: one multi-row `INSERT INTO products` of the
buffered rows.  Under the `dsld_id INTEGER PRIMARY KEY` constraint the
statement succeeds — appending every row — only when each row carries
a key and no key is repeated within the batch or already stored;
otherwise the whole statement is rejected and nothing is inserted. -/
def insertBatch (table : List IngRow) (rows : List IngRow) : Option (List IngRow) :=
  if rows.all (fun r => r.dsldId.isSome)
      && !rows.any (fun r => ingKeyTaken table r.dsldId)
      && batchNodup rows then
    some (table ++ rows)
  else none

/-- Split the parsed rows into the fixed-size groups flushed by the
ingest loop (the final group may be shorter). -/
def chunksOf {ρ : Type} (n : Nat) : List ρ → List (List ρ)
  | [] => []
  | r :: rest =>
    if n = 0 then [r :: rest]
    else (r :: rest).take n :: chunksOf n ((r :: rest).drop n)
termination_by l => l.length
decreasing_by simp_wf; omega

/-- Run the batches in order until one is rejected; the flag records
whether the flow completed (a rejected `INSERT` throws, and the
uncaught error stops every later batch, leaving the table as the
preceding batches left it). -/
def ingestChunks : List (List IngRow) → List IngRow → List IngRow × Bool
  | [], t => (t, true)
  | b :: bs, t =>
    match insertBatch t b with
    | some t' => ingestChunks bs t'
    | none => (t, false)

/-- `ingestFile` for the `products` table: batch the parsed rows and
flush each batch with `insertBatch`. -/
def ingestFile (batchSize : Nat) (table rows : List IngRow) : List IngRow × Bool :=
  ingestChunks (chunksOf batchSize rows) table

/-- The failure modes of one external-model call singled out by the
error-handling design: a thrown request (network failure, timeout,
non-2xx), missing content, or content whose extracted candidate is
absent or unparseable. -/
def FailsFor (parse : List Char → Option Prediction) (o : K2Outcome) : Prop :=
  o = .httpError ∨ o = .noContent ∨
    ∃ raw, o = .content raw ∧ (extractJsonRoute raw).bind parse = none

/-! # Theorems -/

theorem startsW_refl (l : List Char) : startsW l l = true := by
  induction l with
  | nil => rfl
  | cons a t ih => simp [startsW, ih]

theorem hasSub_self (l : List Char) : hasSub l l = true := by
  cases l with
  | nil => rfl
  | cons a t => simp [hasSub, startsW_refl]

theorem braceDepth_cons (c : Char) (l : List Char) :
    braceDepth (c :: l) = charD c + braceDepth l := by
  simp [braceDepth]

theorem step_eq_charD (depth : Int) (c : Char) :
    (if c = '{' then depth + 1 else if c = '}' then depth - 1 else depth)
      = depth + charD c := by
  unfold charD
  by_cases h1 : c = '{'
  · simp [h1]
  · by_cases h2 : c = '}'
    · simp [h1, h2]; ring
    · simp [h1, h2]

theorem scanBal_spec :
    ∀ (rest : List Char) (depth : Int) (acc o : List Char),
      scanBal depth acc rest = some o →
      ∃ k, 0 < k ∧ k ≤ rest.length ∧ o = acc.reverse ++ rest.take k ∧
        depth + braceDepth (rest.take k) = 0 ∧
        ∀ m, 0 < m → m < k → depth + braceDepth (rest.take m) ≠ 0 := by
  intro rest
  induction rest with
  | nil => intro depth acc o h; simp [scanBal] at h
  | cons c t ih =>
    intro depth acc o h
    rw [scanBal] at h
    simp only [step_eq_charD] at h
    by_cases hd : depth + charD c = 0
    · rw [if_pos hd] at h
      refine ⟨1, by omega, by simp, ?_, ?_, ?_⟩
      · simpa using h.symm
      · simpa [braceDepth_cons, braceDepth] using hd
      · intro m hm hm1; omega
    · rw [if_neg hd] at h
      obtain ⟨k, hk0, hklen, ho, hdep, hmin⟩ := ih (depth + charD c) (c :: acc) o h
      refine ⟨k + 1, by omega, by simpa using by omega, ?_, ?_, ?_⟩
      · simpa [List.take_succ_cons] using ho
      · rw [List.take_succ_cons, braceDepth_cons]; omega
      · intro m hm hmk
        cases m with
        | zero => omega
        | succ m =>
          cases m with
          | zero =>
            simpa [List.take_succ_cons, braceDepth_cons, braceDepth] using hd
          | succ m =>
            have := hmin (m + 1) (by omega) (by omega)
            rw [List.take_succ_cons, braceDepth_cons]
            omega

theorem findBalanced_first (s o : List Char) (h : findBalanced s = some o) :
    FirstBalancedFrom s o := by
  unfold findBalanced at h
  unfold FirstBalancedFrom
  rcases hc : s.dropWhile (fun c => c ≠ '{') with _ | ⟨x, xs⟩
  · rw [hc] at h; exact absurd h (by simp)
  · rw [hc] at h
    have h' : scanBal 0 [] (x :: xs) = some o := h
    obtain ⟨k, hk0, hklen, ho, hdep, hmin⟩ := scanBal_spec (x :: xs) 0 [] o h'
    exact ⟨k, hk0, hklen, by simpa using ho,
      by omega, fun m hm hmk => by have := hmin m hm hmk; omega⟩

theorem startsW_nil (l : List Char) : startsW l [] = true := by
  cases l <;> rfl

theorem startsW_append_self (m r : List Char) : startsW (m ++ r) m = true := by
  induction m with
  | nil => exact startsW_nil _
  | cons a t ih => simp [startsW, ih]

theorem dropThrough_marker (pre rest : List Char) (h : '<' ∉ pre) :
    dropThrough (pre ++ thinkMarker ++ rest) thinkMarker = some rest := by
  induction pre with
  | nil =>
    have hne : thinkMarker ++ rest = '<' :: ('/' :: "think>".toList ++ rest) := by
      simp [thinkMarker]
    simp only [List.nil_append]
    rw [hne, dropThrough, ← hne, if_pos (startsW_append_self _ _)]
    simp [thinkMarker]
  | cons p ps ih =>
    have hp : p ≠ '<' := fun hp => h (hp ▸ List.mem_cons_self p ps)
    have hps : '<' ∉ ps := fun hm => h (List.mem_cons_of_mem p hm)
    have hfalse : startsW (p :: (ps ++ thinkMarker ++ rest)) thinkMarker = false := by
      simp [thinkMarker, startsW, hp]
    simp only [List.cons_append]
    rw [dropThrough, hfalse]
    simpa using ih hps

theorem stripReasoning_marker (pre rest : List Char) (h : '<' ∉ pre) :
    stripReasoning (pre ++ thinkMarker ++ rest) = rest := by
  unfold stripReasoning
  rw [dropThrough_marker pre rest h]

theorem minByKey_fold_mem {α : Type} (key : α → List Char) :
    ∀ (l : List α) (acc : Option α) (q : α),
      l.foldl
          (fun acc p =>
            match acc with
            | none => some p
            | some r => if String.mk (key p) < String.mk (key r) then some p else some r)
          acc = some q →
        q ∈ l ∨ acc = some q := by
  intro l
  induction l with
  | nil => intro acc q h; right; exact h
  | cons p t ih =>
    intro acc q h
    rw [List.foldl_cons] at h
    rcases ih _ q h with hq | hq
    · exact Or.inl (List.mem_cons_of_mem _ hq)
    · cases acc with
      | none =>
        simp only [Option.some.injEq] at hq
        exact Or.inl (hq ▸ List.mem_cons_self p t)
      | some r =>
        dsimp only at hq
        by_cases hlt : String.mk (key p) < String.mk (key r)
        · rw [if_pos hlt] at hq
          simp only [Option.some.injEq] at hq
          exact Or.inl (hq ▸ List.mem_cons_self p t)
        · rw [if_neg hlt] at hq
          exact Or.inr hq

theorem minByKey_mem {α : Type} (key : α → List Char) (l : List α) (q : α)
    (h : minByKey key l = some q) : q ∈ l := by
  rcases minByKey_fold_mem key l none q h with hq | hq
  · exact hq
  · exact absurd hq (by simp)

theorem minByKey_fold_isSome {α : Type} (key : α → List Char) :
    ∀ (l : List α) (acc : Option α), acc.isSome ∨ l ≠ [] →
      (l.foldl
          (fun acc p =>
            match acc with
            | none => some p
            | some r => if String.mk (key p) < String.mk (key r) then some p else some r)
          acc).isSome := by
  intro l
  induction l with
  | nil =>
    intro acc h
    rcases h with h | h
    · exact h
    · exact absurd rfl h
  | cons p t ih =>
    intro acc h
    rw [List.foldl_cons]
    refine ih _ (Or.inl ?_)
    cases acc with
    | none => rfl
    | some r =>
      dsimp only
      by_cases hlt : String.mk (key p) < String.mk (key r)
      · rw [if_pos hlt]; rfl
      · rw [if_neg hlt]; rfl

theorem minByKey_isSome {α : Type} (key : α → List Char) (l : List α) (h : l ≠ []) :
    (minByKey key l).isSome := by
  exact minByKey_fold_isSome key l none (Or.inr h)

theorem likeMatch_no_wildcards :
    ∀ (p : List Char), '%' ∉ p → '_' ∉ p → ∀ t, (likeMatch t p = true ↔ t = p) := by
  intro p
  induction p with
  | nil =>
    intro _ _ t
    rw [likeMatch]
    simp [List.isEmpty_iff]
  | cons c ps ih =>
    intro hpc hus t
    have hc : c ≠ '%' := fun h => hpc (h ▸ List.mem_cons_self c ps)
    have hcu : c ≠ '_' := fun h => hus (h ▸ List.mem_cons_self c ps)
    have hps : '%' ∉ ps := fun h => hpc (List.mem_cons_of_mem c h)
    have hpsu : '_' ∉ ps := fun h => hus (List.mem_cons_of_mem c h)
    cases t with
    | nil =>
      rw [likeMatch, if_neg hc]
      simp
    | cons a t' =>
      rw [likeMatch, if_neg hc]
      simp only [Bool.and_eq_true, Bool.or_eq_true, decide_eq_true_eq]
      rw [ih hps hpsu t']
      constructor
      · rintro ⟨hca | hca, ht⟩
        · exact absurd hca hcu
        · simp [hca, ht]
      · intro h
        injection h with h1 h2
        exact ⟨Or.inr h1.symm, h2⟩

theorem processPair_fails (parse : List Char → Option Prediction)
    (a b : ItemDetail) (o : K2Outcome) (h : FailsFor parse o) :
    processPair parse a b o = none := by
  rcases h with h | h | ⟨raw, rfl, hb⟩
  · rw [h]; rfl
  · rw [h]; rfl
  · rw [processPair]
    cases hext : extractJsonRoute raw with
    | none => rfl
    | some j =>
      rw [hext] at hb
      simp only [Option.some_bind] at hb
      dsimp only
      rw [hb]

theorem interExists_append (s ext : List IRow) (p q : Nat)
    (h : interExists s p q = true) : interExists (s ++ ext) p q = true := by
  simp only [interExists, List.any_append, Bool.or_eq_true]
  exact Or.inl h

theorem loadInter_fold_mem :
    ∀ (cands : List IRow) (acc : LoadResult IRow) (r : IRow),
      r ∈ (cands.foldl
          (fun acc r =>
            if interExists acc.store r.product_id_1 r.product_id_2 then
              ⟨acc.store, acc.loaded, acc.skipped + 1⟩
            else ⟨acc.store ++ [r], acc.loaded + 1, acc.skipped⟩)
          acc).store →
        r ∈ acc.store ∨ r ∈ cands := by
  intro cands
  induction cands with
  | nil => intro acc r h; exact Or.inl h
  | cons c t ih =>
    intro acc r h
    rw [List.foldl_cons] at h
    rcases ih _ r h with hr | hr
    · by_cases hex : interExists acc.store c.product_id_1 c.product_id_2
      · rw [if_pos hex] at hr
        exact Or.inl hr
      · rw [if_neg hex] at hr
        dsimp only at hr
        rcases List.mem_append.mp hr with hr | hr
        · exact Or.inl hr
        · simp only [List.mem_singleton] at hr
          exact Or.inr (hr ▸ List.mem_cons_self c t)
    · exact Or.inr (List.mem_cons_of_mem _ hr)

theorem loadInter_fold_grow :
    ∀ (cands : List IRow) (acc : LoadResult IRow),
      ∃ ext, (cands.foldl
          (fun acc r =>
            if interExists acc.store r.product_id_1 r.product_id_2 then
              ⟨acc.store, acc.loaded, acc.skipped + 1⟩
            else ⟨acc.store ++ [r], acc.loaded + 1, acc.skipped⟩)
          acc).store = acc.store ++ ext := by
  intro cands
  induction cands with
  | nil => intro acc; exact ⟨[], by simp⟩
  | cons c t ih =>
    intro acc
    rw [List.foldl_cons]
    by_cases hex : interExists acc.store c.product_id_1 c.product_id_2
    · rw [if_pos hex]
      obtain ⟨ext, hext⟩ := ih ⟨acc.store, acc.loaded, acc.skipped + 1⟩
      exact ⟨ext, hext⟩
    · rw [if_neg hex]
      obtain ⟨ext, hext⟩ := ih ⟨acc.store ++ [c], acc.loaded + 1, acc.skipped⟩
      exact ⟨[c] ++ ext, by rw [hext]; simp⟩

theorem loadInter_fold_covers :
    ∀ (cands : List IRow) (acc : LoadResult IRow) (c : IRow), c ∈ cands →
      interExists
        (cands.foldl
          (fun acc r =>
            if interExists acc.store r.product_id_1 r.product_id_2 then
              ⟨acc.store, acc.loaded, acc.skipped + 1⟩
            else ⟨acc.store ++ [r], acc.loaded + 1, acc.skipped⟩)
          acc).store c.product_id_1 c.product_id_2 = true := by
  intro cands
  induction cands with
  | nil => intro acc c hc; exact absurd hc (List.not_mem_nil c)
  | cons x t ih =>
    intro acc c hc
    rw [List.foldl_cons]
    rcases List.mem_cons.mp hc with hc | hc
    · subst hc
      by_cases hex : interExists acc.store c.product_id_1 c.product_id_2
      · rw [if_pos hex]
        obtain ⟨ext, hext⟩ :=
          loadInter_fold_grow t ⟨acc.store, acc.loaded, acc.skipped + 1⟩
        rw [hext]
        exact interExists_append _ _ _ _ hex
      · rw [if_neg hex]
        obtain ⟨ext, hext⟩ :=
          loadInter_fold_grow t ⟨acc.store ++ [c], acc.loaded + 1, acc.skipped⟩
        rw [hext]
        apply interExists_append
        simp [interExists]
    · exact ih _ c hc

theorem loadInter_fold_noop :
    ∀ (cands : List IRow) (acc : LoadResult IRow),
      (∀ c ∈ cands, interExists acc.store c.product_id_1 c.product_id_2 = true) →
      cands.foldl
          (fun acc r =>
            if interExists acc.store r.product_id_1 r.product_id_2 then
              ⟨acc.store, acc.loaded, acc.skipped + 1⟩
            else ⟨acc.store ++ [r], acc.loaded + 1, acc.skipped⟩)
          acc = ⟨acc.store, acc.loaded, acc.skipped + cands.length⟩ := by
  intro cands
  induction cands with
  | nil => intro acc _; simp
  | cons c t ih =>
    intro acc hall
    rw [List.foldl_cons, if_pos (hall c (List.mem_cons_self c t))]
    rw [ih ⟨acc.store, acc.loaded, acc.skipped + 1⟩
      (fun x hx => hall x (List.mem_cons_of_mem _ hx))]
    simp only [List.length_cons]
    congr 1
    omega

theorem productExists_append (s ext : List DProd) (i : Option Nat)
    (h : productExists s i = true) : productExists (s ++ ext) i = true := by
  cases i with
  | none => exact absurd h (by simp [productExists])
  | some v =>
    simp only [productExists, List.any_append, Bool.or_eq_true]
    simp only [productExists] at h
    exact Or.inl h

theorem loadProd_fold_grow :
    ∀ (items : List DProd) (acc : LoadResult DProd),
      ∃ ext, (items.foldl
          (fun acc r =>
            if productExists acc.store r.dsldId then
              ⟨acc.store, acc.loaded, acc.skipped + 1⟩
            else ⟨acc.store ++ [r], acc.loaded + 1, acc.skipped⟩)
          acc).store = acc.store ++ ext := by
  intro items
  induction items with
  | nil => intro acc; exact ⟨[], by simp⟩
  | cons c t ih =>
    intro acc
    rw [List.foldl_cons]
    by_cases hex : productExists acc.store c.dsldId
    · rw [if_pos hex]
      obtain ⟨ext, hext⟩ := ih ⟨acc.store, acc.loaded, acc.skipped + 1⟩
      exact ⟨ext, hext⟩
    · rw [if_neg hex]
      obtain ⟨ext, hext⟩ := ih ⟨acc.store ++ [c], acc.loaded + 1, acc.skipped⟩
      exact ⟨[c] ++ ext, by rw [hext]; simp⟩

theorem loadProd_fold_covers :
    ∀ (items : List DProd) (acc : LoadResult DProd) (c : DProd), c ∈ items →
      c.dsldId.isSome →
      productExists
        (items.foldl
          (fun acc r =>
            if productExists acc.store r.dsldId then
              ⟨acc.store, acc.loaded, acc.skipped + 1⟩
            else ⟨acc.store ++ [r], acc.loaded + 1, acc.skipped⟩)
          acc).store c.dsldId = true := by
  intro items
  induction items with
  | nil => intro acc c hc _; exact absurd hc (List.not_mem_nil c)
  | cons x t ih =>
    intro acc c hc hsome
    rw [List.foldl_cons]
    rcases List.mem_cons.mp hc with hc | hc
    · subst hc
      by_cases hex : productExists acc.store c.dsldId
      · rw [if_pos hex]
        obtain ⟨ext, hext⟩ :=
          loadProd_fold_grow t ⟨acc.store, acc.loaded, acc.skipped + 1⟩
        rw [hext]
        exact productExists_append _ _ _ hex
      · rw [if_neg hex]
        obtain ⟨ext, hext⟩ :=
          loadProd_fold_grow t ⟨acc.store ++ [c], acc.loaded + 1, acc.skipped⟩
        rw [hext]
        apply productExists_append
        obtain ⟨v, hv⟩ := Option.isSome_iff_exists.mp hsome
        simp [productExists, hv]
    · exact ih _ c hc hsome

theorem loadProd_fold_noop :
    ∀ (items : List DProd) (acc : LoadResult DProd),
      (∀ c ∈ items, productExists acc.store c.dsldId = true) →
      items.foldl
          (fun acc r =>
            if productExists acc.store r.dsldId then
              ⟨acc.store, acc.loaded, acc.skipped + 1⟩
            else ⟨acc.store ++ [r], acc.loaded + 1, acc.skipped⟩)
          acc = ⟨acc.store, acc.loaded, acc.skipped + items.length⟩ := by
  intro items
  induction items with
  | nil => intro acc _; simp
  | cons c t ih =>
    intro acc hall
    rw [List.foldl_cons, if_pos (hall c (List.mem_cons_self c t))]
    rw [ih ⟨acc.store, acc.loaded, acc.skipped + 1⟩
      (fun x hx => hall x (List.mem_cons_of_mem _ hx))]
    simp only [List.length_cons]
    congr 1
    omega

theorem loadInteractions_covers (store cands : List IRow) :
    ∀ c ∈ cands,
      interExists (loadInteractions store cands).store
        c.product_id_1 c.product_id_2 = true := by
  unfold loadInteractions
  exact fun c hc => loadInter_fold_covers cands ⟨store, 0, 0⟩ c hc

theorem loadInteractions_noop (store cands : List IRow)
    (h : ∀ c ∈ cands, interExists store c.product_id_1 c.product_id_2 = true) :
    loadInteractions store cands = ⟨store, 0, cands.length⟩ := by
  unfold loadInteractions
  rw [loadInter_fold_noop cands ⟨store, 0, 0⟩ h]
  simp

theorem loadProducts_covers (store items : List DProd)
    (hkeys : ∀ i ∈ items, i.dsldId.isSome) :
    ∀ c ∈ items, productExists (loadProducts store items).store c.dsldId = true := by
  unfold loadProducts
  exact fun c hc => loadProd_fold_covers items ⟨store, 0, 0⟩ c hc (hkeys c hc)

theorem loadProducts_noop (store items : List DProd)
    (h : ∀ c ∈ items, productExists store c.dsldId = true) :
    loadProducts store items = ⟨store, 0, items.length⟩ := by
  unfold loadProducts
  rw [loadProd_fold_noop items ⟨store, 0, 0⟩ h]
  simp

theorem chunksOf_flatten {ρ : Type} (n : Nat) :
    ∀ (len : Nat) (rows : List ρ), rows.length ≤ len →
      (chunksOf n rows).flatten = rows := by
  intro len
  induction len with
  | zero =>
    intro rows h
    have hrows : rows = [] := List.length_eq_zero.mp (Nat.le_zero.mp h)
    subst hrows
    simp [chunksOf]
  | succ len ih =>
    intro rows h
    cases rows with
    | nil => simp [chunksOf]
    | cons r rest =>
      rw [chunksOf]
      by_cases hn : n = 0
      · rw [if_pos hn]
        simp
      · rw [if_neg hn]
        rw [List.flatten_cons]
        rw [ih ((r :: rest).drop n) (by simp at h ⊢; omega)]
        exact List.take_append_drop n (r :: rest)

theorem chunksOf_cons {ρ : Type} (n : Nat) (r : ρ) (rest : List ρ) :
    ∃ btail bs, chunksOf n (r :: rest) = (r :: btail) :: bs := by
  rw [chunksOf]
  by_cases hn : n = 0
  · rw [if_pos hn]
    exact ⟨rest, [], rfl⟩
  · rw [if_neg hn]
    obtain ⟨m, rfl⟩ := Nat.exists_eq_succ_of_ne_zero hn
    exact ⟨rest.take m, chunksOf (m + 1) ((r :: rest).drop (m + 1)),
      by rw [List.take_succ_cons]⟩

theorem insertBatch_some (t b t' : List IngRow) (h : insertBatch t b = some t') :
    t' = t ++ b ∧ b.all (fun r => r.dsldId.isSome) = true := by
  unfold insertBatch at h
  by_cases hc : (b.all (fun r => r.dsldId.isSome)
      && !b.any (fun r => ingKeyTaken t r.dsldId)
      && batchNodup b) = true
  · rw [if_pos hc] at h
    injection h with h
    simp only [Bool.and_eq_true] at hc
    exact ⟨h.symm, hc.1.1⟩
  · rw [if_neg hc] at h
    exact absurd h (by simp)

theorem insertBatch_none_of_taken (t b : List IngRow) (r : IngRow)
    (hr : r ∈ b) (htaken : ingKeyTaken t r.dsldId = true) :
    insertBatch t b = none := by
  have hany : b.any (fun x => ingKeyTaken t x.dsldId) = true :=
    List.any_eq_true.mpr ⟨r, hr, htaken⟩
  unfold insertBatch
  simp [hany]

theorem ingestChunks_cons_true (b : List IngRow) (bs : List (List IngRow))
    (t t' : List IngRow) (h : ingestChunks (b :: bs) t = (t', true)) :
    ∃ t'', insertBatch t b = some t'' ∧ ingestChunks bs t'' = (t', true) := by
  rw [ingestChunks] at h
  cases hb : insertBatch t b with
  | none =>
    rw [hb] at h
    exact absurd h (by simp)
  | some t'' =>
    rw [hb] at h
    exact ⟨t'', rfl, h⟩

theorem ingestChunks_ok_append :
    ∀ (bs : List (List IngRow)) (t t' : List IngRow),
      ingestChunks bs t = (t', true) → t' = t ++ bs.flatten := by
  intro bs
  induction bs with
  | nil =>
    intro t t' h
    rw [ingestChunks] at h
    injection h with h _
    simp [h.symm]
  | cons b rest ih =>
    intro t t' h
    obtain ⟨t'', hb, hrest⟩ := ingestChunks_cons_true b rest t t' h
    obtain ⟨hts, _⟩ := insertBatch_some t b t'' hb
    rw [ih t'' t' hrest, hts, List.flatten_cons, List.append_assoc]

theorem ingest_rerun (n : Nat) (table rows t1 : List IngRow)
    (hne : rows ≠ []) (h1 : ingestFile n table rows = (t1, true)) :
    ingestFile n t1 rows = (t1, false) := by
  obtain ⟨r, rest, rfl⟩ := List.exists_cons_of_ne_nil hne
  obtain ⟨btail, bs, hch⟩ := chunksOf_cons n r rest
  unfold ingestFile at h1 ⊢
  rw [hch] at h1 ⊢
  obtain ⟨t'', hb, _⟩ := ingestChunks_cons_true _ _ _ _ h1
  obtain ⟨_, hall⟩ := insertBatch_some _ _ _ hb
  have hsome : r.dsldId.isSome :=
    List.all_eq_true.mp hall r (List.mem_cons_self r btail)
  obtain ⟨v, hv⟩ := Option.isSome_iff_exists.mp hsome
  have ht1 : t1 = table ++ (r :: rest) := by
    have happ := ingestChunks_ok_append _ _ _ h1
    have hfl : ((r :: btail) :: bs).flatten = r :: rest := by
      rw [← hch]
      exact chunksOf_flatten n (r :: rest).length _ le_rfl
    rw [happ, hfl]
  have hrmem : r ∈ t1 := by
    rw [ht1]
    exact List.mem_append_right _ (List.mem_cons_self r rest)
  have htaken : ingKeyTaken t1 r.dsldId = true := by
    rw [hv]
    simp only [ingKeyTaken]
    exact List.any_eq_true.mpr ⟨r, hrmem, by simp [hv]⟩
  rw [ingestChunks,
    insertBatch_none_of_taken t1 (r :: btail) r (List.mem_cons_self r btail) htaken]

theorem scriptPrediction_ids (pred : Prediction) (p1 p2 : KProd) (r : IRow)
    (h : scriptPrediction pred p1 p2 = some r) :
    r.product_id_1 = p1.id ∧ r.product_id_2 = p2.id := by
  unfold scriptPrediction at h
  by_cases hc : (!pred.has_interaction || pred.severity == some "none".toList) = true
  · rw [if_pos hc] at h
    exact absurd h (by simp)
  · rw [if_neg hc] at h
    injection h with h
    subst h
    exact ⟨rfl, rfl⟩

theorem scriptPredictInteraction_ids (parse : List Char → Option Prediction)
    (p1 p2 : KProd) (o : K2Outcome) (r : IRow)
    (h : scriptPredictInteraction parse p1 p2 o = some r) :
    r.product_id_1 = p1.id ∧ r.product_id_2 = p2.id := by
  unfold scriptPredictInteraction at h
  cases o with
  | httpError => exact absurd h (by simp)
  | noContent => exact absurd h (by simp)
  | content raw =>
    dsimp only at h
    cases hext : naiveExtract raw with
    | none => rw [hext] at h; exact absurd h (by simp)
    | some j =>
      rw [hext] at h
      dsimp only at h
      cases hp : parse j with
      | none => rw [hp] at h; exact absurd h (by simp)
      | some pred =>
        rw [hp] at h
        dsimp only at h
        exact scriptPrediction_ids pred p1 p2 r h

theorem k2Collect_ne (parse : List Char → Option Prediction)
    (targetProducts : List KProd) (oracle : Nat → K2Outcome) (r : IRow)
    (h : r ∈ k2Collect parse targetProducts oracle) :
    r.product_id_1 ≠ r.product_id_2 := by
  unfold k2Collect at h
  obtain ⟨ka, _, hka⟩ := List.mem_filterMap.mp h
  by_cases hid : ka.2.1.id = ka.2.2.id
  · rw [if_pos hid] at hka
    exact absurd hka (by simp)
  · rw [if_neg hid] at hka
    obtain ⟨h1, h2⟩ := scriptPredictInteraction_ids parse _ _ _ r hka
    rw [h1, h2]
    exact hid

theorem rxCollect_aux (products : List RProd) (rxLookup : RProd → List RxInter) :
    ∀ (loop : List RProd) (r : IRow),
      r ∈ loop.foldr
          (fun p acc =>
            ((rxLookup p).filterMap (fun ri =>
              match findPid products ri.drugName with
              | some pid2 =>
                if pid2 ≠ p.id then
                  some ⟨p.id, pid2,
                    some (if ri.description.isEmpty then ri.drugName else ri.description),
                    some (determineSeverity ri.description), none,
                    "From RxNorm API".toList, []⟩
                else none
              | none => none)) ++ acc)
          [] →
        r.product_id_1 ≠ r.product_id_2 := by
  intro loop
  induction loop with
  | nil => intro r h; exact absurd h (List.not_mem_nil r)
  | cons p t ih =>
    intro r h
    rw [List.foldr_cons] at h
    rcases List.mem_append.mp h with h | h
    · obtain ⟨ri, _, hri⟩ := List.mem_filterMap.mp h
      cases hfp : findPid products ri.drugName with
      | none => rw [hfp] at hri; exact absurd hri (by simp)
      | some pid2 =>
        rw [hfp] at hri
        dsimp only at hri
        by_cases hne : pid2 ≠ p.id
        · rw [if_pos hne] at hri
          injection hri with hri
          subst hri
          exact fun hcontra => hne hcontra.symm
        · rw [if_neg hne] at hri
          exact absurd hri (by simp)
    · exact ih r h

theorem rxCollect_ne (products : List RProd) (rxLookup : RProd → List RxInter)
    (r : IRow) (h : r ∈ rxCollect products rxLookup) :
    r.product_id_1 ≠ r.product_id_2 := by
  unfold rxCollect at h
  exact rxCollect_aux products rxLookup products r h

/-! # Claims -/

/-- C7.  The interaction-backfill severity classifier maps every
free-text description by the keyword cascade over the lowered text:
contraindicated/avoid → contraindicated; else severe/serious → severe;
else moderate → moderate; else minor/mild → mild; else the default
moderate. -/
theorem c7_determine_severity (d : List Char) :
    ((hasSub (lowerStr d) "contraindicated".toList
        || hasSub (lowerStr d) "avoid".toList) = true →
      determineSeverity d = "contraindicated".toList) ∧
    ((hasSub (lowerStr d) "contraindicated".toList
        || hasSub (lowerStr d) "avoid".toList) = false →
      (hasSub (lowerStr d) "severe".toList
        || hasSub (lowerStr d) "serious".toList) = true →
      determineSeverity d = "severe".toList) ∧
    ((hasSub (lowerStr d) "contraindicated".toList
        || hasSub (lowerStr d) "avoid".toList) = false →
      (hasSub (lowerStr d) "severe".toList
        || hasSub (lowerStr d) "serious".toList) = false →
      hasSub (lowerStr d) "moderate".toList = true →
      determineSeverity d = "moderate".toList) ∧
    ((hasSub (lowerStr d) "contraindicated".toList
        || hasSub (lowerStr d) "avoid".toList) = false →
      (hasSub (lowerStr d) "severe".toList
        || hasSub (lowerStr d) "serious".toList) = false →
      hasSub (lowerStr d) "moderate".toList = false →
      (hasSub (lowerStr d) "minor".toList
        || hasSub (lowerStr d) "mild".toList) = true →
      determineSeverity d = "mild".toList) ∧
    ((hasSub (lowerStr d) "contraindicated".toList
        || hasSub (lowerStr d) "avoid".toList) = false →
      (hasSub (lowerStr d) "severe".toList
        || hasSub (lowerStr d) "serious".toList) = false →
      hasSub (lowerStr d) "moderate".toList = false →
      (hasSub (lowerStr d) "minor".toList
        || hasSub (lowerStr d) "mild".toList) = false →
      determineSeverity d = "moderate".toList) := by
  refine ⟨fun h1 => ?_, fun h1 h2 => ?_, fun h1 h2 h3 => ?_,
    fun h1 h2 h3 h4 => ?_, fun h1 h2 h3 h4 => ?_⟩ <;>
    simp only [determineSeverity]
  · rw [if_pos h1]
  · rw [if_neg (by rw [h1]; simp), if_pos h2]
  · rw [if_neg (by rw [h1]; simp), if_neg (by rw [h2]; simp), if_pos h3]
  · rw [if_neg (by rw [h1]; simp), if_neg (by rw [h2]; simp), if_neg (by rw [h3]; simp),
      if_pos h4]
  · rw [if_neg (by rw [h1]; simp), if_neg (by rw [h2]; simp), if_neg (by rw [h3]; simp),
      if_neg (by rw [h4]; simp)]

/-- Witness for C7 at a concrete description. -/
theorem c7_witness :
    (hasSub (lowerStr "AVOID combined use".toList) "contraindicated".toList
      || hasSub (lowerStr "AVOID combined use".toList) "avoid".toList) = true ∧
    determineSeverity "AVOID combined use".toList = "contraindicated".toList :=
  ⟨by decide, (c7_determine_severity _).1 (by decide)⟩

/-- C9.  `POST /compare` with fewer than two product names returns the
error code `at_least_two_products_required` with an empty comparison
and leaves the store untouched (both the Supabase and the pg handler,
neither of which issues any query before this check). -/
theorem c9_compare_validation (store : List Product) (names : List (List Char))
    (h : names.length < 2) :
    compareSupabase store names =
      (⟨[], some "at_least_two_products_required".toList⟩, store) ∧
    comparePg store names =
      (⟨[], some "at_least_two_products_required".toList⟩, store) := by
  constructor
  · unfold compareSupabase
    rw [if_pos h]
  · unfold comparePg
    rw [if_pos h]

/-- Witness for C9 at a concrete one-name request. -/
theorem c9_witness :
    compareSupabase [] ["Aspirin".toList] =
      (⟨[], some "at_least_two_products_required".toList⟩, []) ∧
    comparePg [] ["Aspirin".toList] =
      (⟨[], some "at_least_two_products_required".toList⟩, []) :=
  c9_compare_validation [] ["Aspirin".toList] (by decide)

/-- C5.  In the `/predict-interactions` pair loop, a failing outcome
for one pair (request error — network failure, timeout or non-2xx —,
missing content, or content whose candidate JSON cannot be extracted
or parsed) contributes no entry for that pair, while every other pair
in the batch is evaluated exactly as before from its own outcome; the
loop is a total function, so no error reaches the caller. -/
theorem c5_pair_isolation (parse : List Char → Option Prediction)
    (details : List ItemDetail) (oracle : Nat → K2Outcome) (q : Nat)
    (h : FailsFor parse (oracle q)) :
    predictPairs parse details oracle =
      (allPairs details).enum.filterMap
        (fun ka => if ka.1 = q then none
          else processPair parse ka.2.1 ka.2.2 (oracle ka.1)) := by
  unfold predictPairs
  apply List.filterMap_congr
  intro ka _
  by_cases hk : ka.1 = q
  · rw [if_pos hk, hk]
    exact processPair_fails parse _ _ _ h
  · rw [if_neg hk]

/-- Witness for C5: a three-item batch whose first pair times out. -/
theorem c5_witness :
    predictPairs (fun _ => some ⟨true, some "mild".toList, none, none, none⟩)
        [⟨"A".toList, "unknown".toList, "A".toList, []⟩,
         ⟨"B".toList, "unknown".toList, "B".toList, []⟩,
         ⟨"C".toList, "unknown".toList, "C".toList, []⟩]
        (fun k => if k = 0 then K2Outcome.httpError
          else K2Outcome.content "\x7bx\x7d".toList) =
      (allPairs
          [⟨"A".toList, "unknown".toList, "A".toList, []⟩,
           ⟨"B".toList, "unknown".toList, "B".toList, []⟩,
           ⟨"C".toList, "unknown".toList, "C".toList, []⟩]).enum.filterMap
        (fun ka => if ka.1 = 0 then none
          else processPair (fun _ => some ⟨true, some "mild".toList, none, none, none⟩)
            ka.2.1 ka.2.2
            ((fun k => if k = 0 then K2Outcome.httpError
              else K2Outcome.content "\x7bx\x7d".toList) ka.1)) :=
  c5_pair_isolation _ _ _ 0 (Or.inl rfl)

/-- C2 counterexample.  In the Supabase `/mix` resolver, the input
`Aspirin` is equal case-insensitively to the stored name of product 2,
yet resolution returns product 1 (`Aspirin Plus`), whose name merely
contains the input and which comes first in catalog order — not the
exactly-matching product. -/
theorem c2_counterexample :
    lowerStr "Aspirin".toList =
      lowerStr (Product.name ⟨2, "Aspirin".toList, "medicine".toList, none, [], none, none, none, []⟩) ∧
    resolveItemSup
        [⟨1, "Aspirin Plus".toList, "medicine".toList, none, [], none, none, none, []⟩,
         ⟨2, "Aspirin".toList, "medicine".toList, none, [], none, none, none, []⟩]
        "Aspirin".toList =
      .product "Aspirin".toList
        ⟨1, "Aspirin Plus".toList, "medicine".toList, none, [], none, none, none, []⟩ [] := by
  constructor
  · decide
  · decide

/-- C2 amended.  An input equal case-insensitively to a stored product
name always resolves to a `product`-tagged record (never falls through
to `ingredient`) in both serving variants; the pg variant's resolved
product has a name equal case-insensitively to the input, while the
Supabase variant only guarantees some containing match — the first in
catalog order, which may be a different, partially-matching product
(see the counterexample). -/
theorem c2_amended :
    (∀ (products : List Product) (input : List Char) (P : Product),
      P ∈ products → lowerStr P.name = lowerStr input →
      ∃ Q ings, resolveItemSup products input = .product input Q ings) ∧
    (∀ (products : List Product) (input : List Char) (P : Product),
      P ∈ products → lowerStr P.name = lowerStr input →
      '%' ∉ lowerStr input → '_' ∉ lowerStr input →
      ∃ Q, resolveItemPg products input = .product input Q Q.active_ingredients ∧
        lowerStr Q.name = lowerStr input) := by
  constructor
  · intro products input P hP hname
    have hsome : (supMatch products input).isSome := by
      rw [supMatch, List.find?_isSome]
      refine ⟨P, hP, ?_⟩
      rw [hname]
      simp [hasSub_self]
    obtain ⟨m, hm⟩ := Option.isSome_iff_exists.mp hsome
    refine ⟨m, m.active_ingredients, ?_⟩
    unfold resolveItemSup
    rw [hm]
  · intro products input P hP hname hw hu
    have hPf : P ∈ products.filter (fun p => likeMatch (lowerStr p.name) (lowerStr input)) := by
      refine List.mem_filter.mpr ⟨hP, ?_⟩
      rw [hname]
      exact (likeMatch_no_wildcards _ hw hu _).mpr rfl
    have hne : products.filter (fun p => likeMatch (lowerStr p.name) (lowerStr input)) ≠ [] := by
      intro hcon
      rw [hcon] at hPf
      exact List.not_mem_nil P hPf
    obtain ⟨Q, hQ⟩ := Option.isSome_iff_exists.mp (minByKey_isSome Product.name _ hne)
    have hQf := minByKey_mem Product.name _ Q hQ
    have hQl : likeMatch (lowerStr Q.name) (lowerStr input) = true :=
      (List.mem_filter.mp hQf).2
    refine ⟨Q, ?_, (likeMatch_no_wildcards _ hw hu _).mp hQl⟩
    unfold resolveItemPg pgProductQuery
    rw [hQ]

/-- Witness for C2 amended at a one-product catalog and the input
`ASPIRIN` differing from the stored name only by case. -/
theorem c2_amended_witness :
    (∃ Q ings,
      resolveItemSup
          [⟨1, "Aspirin".toList, "medicine".toList, none, [], none, none, none, []⟩]
          "ASPIRIN".toList =
        .product "ASPIRIN".toList Q ings) ∧
    (∃ Q,
      resolveItemPg
          [⟨1, "Aspirin".toList, "medicine".toList, none, [], none, none, none, []⟩]
          "ASPIRIN".toList =
        .product "ASPIRIN".toList Q Q.active_ingredients ∧
      lowerStr Q.name = lowerStr "ASPIRIN".toList) :=
  ⟨c2_amended.1 _ _
      ⟨1, "Aspirin".toList, "medicine".toList, none, [], none, none, none, []⟩
      (List.mem_singleton.mpr rfl) (by decide),
    c2_amended.2 _ _
      ⟨1, "Aspirin".toList, "medicine".toList, none, [], none, none, none, []⟩
      (List.mem_singleton.mpr rfl) (by decide) (by decide) (by decide)⟩

/-- C6 counterexample.  In the second pg variant of `/mix`, with an
empty catalog (no products, no supplement facts) the non-blank input
`zzz` matches no stored product and resolves to the tag `unknown`, not
to an `ingredient` record carrying the raw input. -/
theorem c6_counterexample :
    resolveItemPg2 [] [] "zzz".toList = .unknown "zzz".toList ∧
    resolveItemPg2 [] [] "zzz".toList ≠ .ingredient "zzz".toList "zzz".toList := by
  constructor
  · rfl
  · decide

/-- C6 amended.  In the Supabase variant an input matching no stored
product always resolves to `ingredient` carrying the raw input, and
with an empty catalog every input does; in the second pg variant an
input matching no stored product resolves to `ingredient` only when a
stored supplement-fact ingredient matches it (and then carries that
stored name), and otherwise to the tag `unknown`.  Resolution is a
total function in every variant — it never fails. -/
theorem c6_amended :
    (∀ (products : List Product) (input : List Char),
      supMatch products input = none →
      resolveItemSup products input = .ingredient input input) ∧
    (∀ input : List Char, resolveItemSup [] input = .ingredient input input) ∧
    (∀ (products : List DsldRow) (facts : List FactRow) (input : List Char),
      products.filter (fun p => likeMatch (lowerStr p.productName) (lowerStr input)) = [] →
      (∃ g, resolveItemPg2 products facts input = .ingredient input g ∧
        g ∈ facts.map FactRow.ingredient) ∨
      resolveItemPg2 products facts input = .unknown input) := by
  refine ⟨?_, ?_, ?_⟩
  · intro products input h
    unfold resolveItemSup
    rw [h]
  · intro input
    rfl
  · intro products facts input hflt
    unfold resolveItemPg2
    rw [hflt]
    cases hsec : minByKey id
        ((facts.map FactRow.ingredient).filter
          (fun g => likeMatch (lowerStr g) (lowerStr input))) with
    | none =>
      right
      simp only [minByKey, List.foldl_nil]
    | some g =>
      left
      refine ⟨g, ?_, ?_⟩
      · simp only [minByKey, List.foldl_nil]
      · exact (List.mem_filter.mp (minByKey_mem id _ g hsec)).1

/-- Witness for C6 amended: a non-matching input on a non-empty
Supabase catalog, the empty catalog, and the pg variant with one
stored supplement-fact ingredient. -/
theorem c6_amended_witness :
    resolveItemSup
        [⟨1, "Aspirin".toList, "medicine".toList, none, [], none, none, none, []⟩]
        "zzz".toList = .ingredient "zzz".toList "zzz".toList ∧
    resolveItemSup [] "Warfarin".toList =
      .ingredient "Warfarin".toList "Warfarin".toList ∧
    ((∃ g, resolveItemPg2 [] [⟨some 1, "zinc".toList⟩] "zinc".toList =
        .ingredient "zinc".toList g ∧
      g ∈ [FactRow.ingredient ⟨some 1, "zinc".toList⟩]) ∨
      resolveItemPg2 [] [⟨some 1, "zinc".toList⟩] "zinc".toList =
        .unknown "zinc".toList) :=
  ⟨c6_amended.1 _ _ (by decide), c6_amended.2.1 _,
    c6_amended.2.2 [] [⟨some 1, "zinc".toList⟩] "zinc".toList rfl⟩

/-- C1 counterexample.  With the external model returning a
"no interaction" prediction (`has_interaction` false, severity
`none`) for the single pair, the `POST /predict-interactions` route
returns a one-element interactions list recording that pair with
severity `none` — not an empty list: the handler deliberately keeps
`none`-severity predictions. -/
theorem c1_counterexample :
    (predictRoute
        (fun _ => some ⟨false, some "none".toList,
          some "No known interaction".toList, none, none⟩)
        [] ["Aspirin".toList, "Warfarin".toList] true
        (fun _ => K2Outcome.content "\x7bx\x7d".toList)).interactions =
      [⟨"Aspirin".toList, "Warfarin".toList, "none".toList,
        "No known interaction".toList, []⟩] ∧
    (predictRoute
        (fun _ => some ⟨false, some "none".toList,
          some "No known interaction".toList, none, none⟩)
        [] ["Aspirin".toList, "Warfarin".toList] true
        (fun _ => K2Outcome.content "\x7bx\x7d".toList)).interactions ≠ [] := by
  constructor
  · decide
  · decide

/-- C1 amended.  The standalone script's `predictInteraction` treats
`has_interaction` false or severity `none` as "no interaction": it
returns null, so nothing is recorded and nothing is saved.  The route,
by contrast, records a pair whose parsed severity is the (defined,
non-empty) string `none` in the returned list — so a model answering
"no interaction" for every pair yields one record per pair, not an
empty list — while persisting nothing: the handler performs no store
write on any path. -/
theorem c1_amended :
    (∀ (pred : Prediction) (p1 p2 : KProd),
      pred.has_interaction = false ∨ pred.severity = some "none".toList →
      scriptPrediction pred p1 p2 = none) ∧
    (∀ (pred : Prediction) (a b : ItemDetail),
      pred.severity = some "none".toList →
      routePush pred a b =
        some ⟨a.name, b.name, "none".toList,
          optOr pred.description "No significant interaction expected".toList,
          optOr pred.notes []⟩) ∧
    (∀ (parse : List Char → Option Prediction) (store : List Product)
        (items : List (List Char)) (hasKey : Bool) (oracle : Nat → K2Outcome),
      (predictRoute parse store items hasKey oracle).dbWrites = 0) := by
  refine ⟨?_, ?_, ?_⟩
  · intro pred p1 p2 h
    unfold scriptPrediction
    rcases h with h | h
    · simp [h]
    · simp [h]
  · intro pred a b h
    unfold routePush
    rw [h]
    rfl
  · intro parse store items hasKey oracle
    unfold predictRoute
    split
    · rfl
    · split
      · rfl
      · dsimp only
        split
        · rfl
        · rfl

/-- Witness for C1 amended at a concrete "no interaction"
prediction. -/
theorem c1_amended_witness :
    scriptPrediction ⟨false, some "none".toList, none, none, none⟩
        ⟨1, "A".toList, "medicine".toList, none, none⟩
        ⟨2, "B".toList, "supplement".toList, none, none⟩ = none ∧
    routePush ⟨false, some "none".toList, none, none, none⟩
        ⟨"A".toList, "unknown".toList, "A".toList, []⟩
        ⟨"B".toList, "unknown".toList, "B".toList, []⟩ =
      some ⟨"A".toList, "B".toList, "none".toList,
        optOr none "No significant interaction expected".toList, optOr none []⟩ :=
  ⟨c1_amended.1 _ _ _ (Or.inl rfl), c1_amended.2.1 _ _ _ rfl⟩

/-- C4 counterexample.  On the reply `{a:{b}} junk }` the naive
first-opening-brace-to-last-closing-brace extraction — which is what
`predict_interactions_k2.js` (greedy regex) and the `parseK2Json`
fallback compute — returns the whole text, while the route's
brace-depth extraction returns the first balanced object `{a:{b}}`:
the Prediction Bridge does not uniformly use the brace-depth scan. -/
theorem c4_counterexample :
    naiveExtract "\x7ba:\x7bb\x7d\x7d junk \x7d".toList =
      some "\x7ba:\x7bb\x7d\x7d junk \x7d".toList ∧
    extractJsonRoute "\x7ba:\x7bb\x7d\x7d junk \x7d".toList =
      some "\x7ba:\x7bb\x7d\x7d".toList ∧
    naiveExtract "\x7ba:\x7bb\x7d\x7d junk \x7d".toList ≠
      extractJsonRoute "\x7ba:\x7bb\x7d\x7d junk \x7d".toList := by
  refine ⟨by decide, by decide, by decide⟩

/-- C4 amended.  The route handler's extraction first strips
everything up to and including the `</think>` marker and then returns
the first balanced brace object of the remainder by brace-depth
counting (tolerating nested braces); the standalone script and the
`parseK2Json` fallback instead use the naive first-`\x7b`-to-last-`\x7d`
substring (see the counterexample). -/
theorem c4_amended (pre rest : List Char) (h : '<' ∉ pre) :
    extractJsonRoute (pre ++ thinkMarker ++ rest) = findBalanced rest ∧
    ∀ o, findBalanced rest = some o → FirstBalancedFrom rest o := by
  constructor
  · unfold extractJsonRoute
    rw [stripReasoning_marker pre rest h]
  · intro o ho
    exact findBalanced_first rest o ho

/-- Witness for C4 amended on a concrete reply with a reasoning
preamble. -/
theorem c4_amended_witness :
    extractJsonRoute ("Reasoning done.".toList ++ thinkMarker ++ " x \x7bz\x7d y".toList) =
      findBalanced " x \x7bz\x7d y".toList ∧
    FirstBalancedFrom " x \x7bz\x7d y".toList "\x7bz\x7d".toList :=
  ⟨(c4_amended "Reasoning done.".toList " x \x7bz\x7d y".toList (by decide)).1,
    (c4_amended "Reasoning done.".toList " x \x7bz\x7d y".toList (by decide)).2
      "\x7bz\x7d".toList (by decide)⟩

/-- C3.  For every request whose resolved items match at least two
products and every stored interaction row with both product references
(in either column order: the filter is symmetric in the two id
columns) among the matched ids, `POST /mix` returns that row,
annotated with both product names, in its interactions array; the
handler invokes no prediction: its model-call count is zero by
construction on every path. -/
theorem c3_mix_stored_lookup (allProducts : List Product) (interRows : List InterRow)
    (items : List (List Char)) (r : InterRow)
    (h2 : 2 ≤ (((items.map trimStr).filter (fun s => !s.isEmpty)).filterMap
        (supMatch allProducts)).length)
    (hr : r ∈ interRows)
    (hp1 : r.product_id_1 ∈ (((items.map trimStr).filter (fun s => !s.isEmpty)).filterMap
        (supMatch allProducts)).map Product.id)
    (hp2 : r.product_id_2 ∈ (((items.map trimStr).filter (fun s => !s.isEmpty)).filterMap
        (supMatch allProducts)).map Product.id) :
    interToOut allProducts r ∈ (mixSupabase allProducts interRows items).interactions ∧
    (mixSupabase allProducts interRows items).predictionCalls = 0 := by
  have hne : ((items.map trimStr).filter (fun s => !s.isEmpty)).isEmpty = false := by
    rw [List.isEmpty_eq_false]
    intro hcon
    rw [hcon] at h2
    simp at h2
  unfold mixSupabase
  rw [if_neg (by rw [hne]; simp)]
  dsimp only
  rw [if_pos h2]
  refine ⟨?_, rfl⟩
  apply List.mem_map_of_mem
  refine List.mem_filter.mpr ⟨hr, ?_⟩
  simp only [List.contains, Bool.and_eq_true, List.elem_eq_mem, decide_eq_true_eq]
  exact ⟨hp1, hp2⟩

/-- Witness for C3: two items resolving to two stored products and one
stored interaction row between them (stored in the reversed column
order relative to the input order). -/
theorem c3_witness :
    interToOut
        [⟨1, "Aspirin".toList, "medicine".toList, none, [], none, none, none, []⟩,
         ⟨2, "Warfarin".toList, "medicine".toList, none, [], none, none, none, []⟩]
        ⟨2, 1, "high".toList, "Increased bleeding risk".toList, []⟩ ∈
      (mixSupabase
        [⟨1, "Aspirin".toList, "medicine".toList, none, [], none, none, none, []⟩,
         ⟨2, "Warfarin".toList, "medicine".toList, none, [], none, none, none, []⟩]
        [⟨2, 1, "high".toList, "Increased bleeding risk".toList, []⟩]
        ["aspirin".toList, "warfarin".toList]).interactions ∧
    (mixSupabase
        [⟨1, "Aspirin".toList, "medicine".toList, none, [], none, none, none, []⟩,
         ⟨2, "Warfarin".toList, "medicine".toList, none, [], none, none, none, []⟩]
        [⟨2, 1, "high".toList, "Increased bleeding risk".toList, []⟩]
        ["aspirin".toList, "warfarin".toList]).predictionCalls = 0 :=
  c3_mix_stored_lookup _ _ _ _ (by decide) (List.mem_singleton.mpr rfl)
    (by decide) (by decide)

/-- Every singleton row list forms one batch, whatever the batch
size. -/
theorem chunksOf_singleton (n : Nat) (r : IngRow) : chunksOf n [r] = [[r]] := by
  rw [chunksOf]
  by_cases hn : n = 0
  · rw [if_pos hn]
  · rw [if_neg hn]
    obtain ⟨m, rfl⟩ := Nat.exists_eq_succ_of_ne_zero hn
    rw [List.take_succ_cons, List.take_nil,
      List.drop_eq_nil_of_le (by simp), chunksOf]

/-- C8 counterexample.  Re-running the tabular CSV ingest
(`scripts/ingest.js`) over an already-ingested one-row source does not
skip the duplicate row: the re-run's first (and only) products batch
collides with the stored `dsld_id` primary key, the multi-row `INSERT`
is rejected atomically, and the uncaught error aborts the flow — the
completion flag is `false` and nothing is skipped-and-continued, while
the table (and so the row count) stays exactly as after the first
run. -/
theorem c8_counterexample :
    ingestFile 2000 [] [⟨some 7, some "VitD".toList⟩] =
      ([⟨some 7, some "VitD".toList⟩], true) ∧
    ingestFile 2000 [⟨some 7, some "VitD".toList⟩] [⟨some 7, some "VitD".toList⟩] =
      ([⟨some 7, some "VitD".toList⟩], false) := by
  constructor
  · unfold ingestFile
    rw [chunksOf_singleton]
    decide
  · unfold ingestFile
    rw [chunksOf_singleton]
    decide

/-- C8 amended.  Re-running an ingestion flow over the same source
leaves the product and interaction row counts at their after-one-run
values in every flow, but only the API-based loaders do so by skipping
duplicates: `loadInteractions` skips every already-stored unordered
pair and `loadProducts` every item whose `dsld_id` already exists (for
items carrying a `dsld_id`), and both complete; the tabular CSV
ingest instead has its re-run's first products batch rejected
atomically by the `dsld_id` primary key of the DSLD schema, and the
uncaught error aborts the flow with the table unchanged — rows are
never inserted a second time, yet nothing is "skipped". -/
theorem c8_amended :
    (∀ (store cands : List IRow),
      loadInteractions (loadInteractions store cands).store cands =
        ⟨(loadInteractions store cands).store, 0, cands.length⟩) ∧
    (∀ (store items : List DProd), (∀ i ∈ items, i.dsldId.isSome) →
      loadProducts (loadProducts store items).store items =
        ⟨(loadProducts store items).store, 0, items.length⟩) ∧
    (∀ (n : Nat) (table rows t1 : List IngRow), rows ≠ [] →
      ingestFile n table rows = (t1, true) →
      ingestFile n t1 rows = (t1, false)) := by
  refine ⟨?_, ?_, ?_⟩
  · intro store cands
    exact loadInteractions_noop _ _ (loadInteractions_covers store cands)
  · intro store items hkeys
    exact loadProducts_noop _ _ (loadProducts_covers store items hkeys)
  · intro n table rows t1 hne h1
    exact ingest_rerun n table rows t1 hne h1

/-- Witness for C8 amended: one keyed product and one interaction
candidate loaded twice, and a completed one-row CSV run re-run. -/
theorem c8_amended_witness :
    loadInteractions
        (loadInteractions [] [⟨1, 2, some "x".toList, some "mild".toList, none, [], []⟩]).store
        [⟨1, 2, some "x".toList, some "mild".toList, none, [], []⟩] =
      ⟨(loadInteractions [] [⟨1, 2, some "x".toList, some "mild".toList, none, [], []⟩]).store,
        0, 1⟩ ∧
    loadProducts (loadProducts [] [⟨some 5, "VitD".toList⟩]).store
        [⟨some 5, "VitD".toList⟩] =
      ⟨(loadProducts [] [⟨some 5, "VitD".toList⟩]).store, 0, 1⟩ ∧
    ingestFile 3 [⟨some 9, none⟩] [⟨some 9, none⟩] = ([⟨some 9, none⟩], false) :=
  ⟨c8_amended.1 [] [⟨1, 2, some "x".toList, some "mild".toList, none, [], []⟩],
    c8_amended.2.1 [] [⟨some 5, "VitD".toList⟩]
      (fun i hi => by rw [List.mem_singleton.mp hi]; rfl),
    c8_amended.2.2 3 [] [⟨some 9, none⟩] [⟨some 9, none⟩] (by simp)
      (by unfold ingestFile; rw [chunksOf_singleton]; decide)⟩

/-- C10.  Neither the RxNorm backfill nor the K2 prediction script
ever inserts a self-pair interaction row: every row in the store after
`loadInteractions` of either writer's candidates was already stored
beforehand or has two distinct product ids — the backfill's loop keeps
a counterpart only when its resolved id differs from the source
product's id, and the script's pair loop skips identical-id pairs. -/
theorem c10_no_self_pairs :
    (∀ (products : List RProd) (rxLookup : RProd → List RxInter)
        (store : List IRow) (r : IRow),
      r ∈ (loadInteractions store (rxCollect products rxLookup)).store →
      r ∈ store ∨ r.product_id_1 ≠ r.product_id_2) ∧
    (∀ (parse : List Char → Option Prediction) (targetProducts : List KProd)
        (oracle : Nat → K2Outcome) (store : List IRow) (r : IRow),
      r ∈ (loadInteractions store (k2Collect parse targetProducts oracle)).store →
      r ∈ store ∨ r.product_id_1 ≠ r.product_id_2) := by
  constructor
  · intro products rxLookup store r h
    unfold loadInteractions at h
    rcases loadInter_fold_mem _ ⟨store, 0, 0⟩ r h with hr | hr
    · exact Or.inl hr
    · exact Or.inr (rxCollect_ne products rxLookup r hr)
  · intro parse targetProducts oracle store r h
    unfold loadInteractions at h
    rcases loadInter_fold_mem _ ⟨store, 0, 0⟩ r h with hr | hr
    · exact Or.inl hr
    · exact Or.inr (k2Collect_ne parse targetProducts oracle r hr)

/-- Witness for C10: both writers run over a two-product store with a
lookup/oracle that produces one candidate each; the invariant is
instantiated at the inserted row. -/
theorem c10_witness :
    (⟨1, 2, some "d".toList, some "moderate".toList, none,
        "From RxNorm API".toList, []⟩ : IRow) ∈
      (loadInteractions []
        (rxCollect
          [⟨1, "Aspirin".toList, "medicine".toList⟩,
           ⟨2, "Warfarin".toList, "medicine".toList⟩]
          (fun p => if p.id = 1 then [⟨"Warfarin".toList, "d".toList⟩] else []))).store ∧
    ((⟨1, 2, some "d".toList, some "moderate".toList, none,
        "From RxNorm API".toList, []⟩ : IRow) ∈ ([] : List IRow) ∨
      (1 : Nat) ≠ 2) ∧
    ((⟨3, 4, some "x".toList, some "mild".toList, none, [], []⟩ : IRow) ∈
        ([⟨3, 4, some "x".toList, some "mild".toList, none, [], []⟩] : List IRow) ∨
      (3 : Nat) ≠ 4) :=
  ⟨by decide,
    c10_no_self_pairs.1
      [⟨1, "Aspirin".toList, "medicine".toList⟩,
       ⟨2, "Warfarin".toList, "medicine".toList⟩]
      (fun p => if p.id = 1 then [⟨"Warfarin".toList, "d".toList⟩] else []) [] _
      (by decide),
    c10_no_self_pairs.2 (fun _ => none) [] (fun _ => K2Outcome.httpError)
      [⟨3, 4, some "x".toList, some "mild".toList, none, [], []⟩] _ (by decide)⟩

end Aimed
